import Mathlib

/-!
Shallow embedding of the ChipWhisperer transport layer.

The definitions below translate `src/client/src/lib/webusb.ts` (the WebUSB
CH341A SPI programmer shim: `detectChip`, `readData`, `writeData`,
`eraseChip`, `disconnect`) and the WebSerial `write` method of the serial
transport.  Device/platform behaviour that the code merely calls into
(USB control transfers, the text encoder) is modelled by explicit
parameters: a memory function stands for the bytes a control-transfer-in
returns, and a boolean stands for whether platform teardown throws.
JavaScript `Number` values reaching the progress callbacks are modelled
as rationals; byte values are naturals (a `Uint8Array` cell is `< 256`,
stated as a hypothesis where a theorem needs it).
-/

namespace ChipWhisperer

/-- Lowercase hexadecimal digit character, as produced by JavaScript
`Number.prototype.toString(16)` for a single-digit value
(`0`-`9` then `a`-`f`). -/
def hexDigitChar (n : Nat) : Char :=
  if n < 10 then Char.ofNat (48 + n) else Char.ofNat (87 + n)

/-- JavaScript `n.toString(16)` for a nonnegative integer `n`:
most-significant digit first, no leading zeros, lowercase. -/
def toString16 (n : Nat) : List Char :=
  if n < 16 then [hexDigitChar n]
  else toString16 (n / 16) ++ [hexDigitChar (n % 16)]
termination_by n
decreasing_by omega

/-- JavaScript `s.padStart(k, c)`: left-pad with `c` up to length `k`. -/
def padStart (k : Nat) (c : Char) (s : List Char) : List Char :=
  List.replicate (k - s.length) c ++ s

/-- The expression `byte.toString(16).toUpperCase().padStart(2, '0')`
used by `readData` and `detectChip` to render one byte. -/
def byteToHex (b : Nat) : List Char :=
  padStart 2 '0' ((toString16 b).map Char.toUpper)

/-- The expression `word.toString(16).toUpperCase().padStart(4, '0')`
used by `detectChip` to render the two-byte device ID. -/
def wordToHex (w : Nat) : List Char :=
  padStart 4 '0' ((toString16 w).map Char.toUpper)

/-- The sixteen characters that can appear in the hex strings produced by
`byteToHex` / `wordToHex`. -/
def upperHexChars : List Char := "0123456789ABCDEF".toList

/-- Address bytes `[(a >> 16) & 0xFF, (a >> 8) & 0xFF, a & 0xFF]` as built
by `readData` and `writeData` (24-bit big-endian address). -/
def addr24 (a : Nat) : List Nat :=
  [(a >>> 16) &&& 0xFF, (a >>> 8) &&& 0xFF, a &&& 0xFF]

/-- Big-endian decoding of a three-byte address list, to state what the
three bytes of `addr24` denote. -/
def decodeBE3 (bs : List Nat) : Nat :=
  match bs with
  | [b2, b1, b0] => 65536 * b2 + 256 * b1 + b0
  | _ => 0

/-- Session state of the WebUSB hook: `device` models `device !== null`,
`isConnected` the `isConnected` flag. -/
structure UsbSession where
  device : Bool
  isConnected : Bool
deriving DecidableEq, Repr

/-- The message thrown by every data operation when no session is open. -/
def notConnectedMsg : String := "USB device not connected"

/-- Observable behaviour of one `readData` call: per 256-byte chunk the
control-transfer-out command together with the requested
control-transfer-in size, the accumulated hex characters, and the values
passed to the progress callback. -/
structure ReadTrace where
  transfers : List (List Nat × Nat)
  hex : List Char
  progress : List ℚ
deriving DecidableEq, Repr

/-- The `for (let offset = 0; offset < length; offset += chunkSize)` loop
of `readData`.  `mem a` is the byte the device returns for address `a`
(the claim's assumption that every control-transfer-in returns exactly
the requested number of bytes is built into the model). -/
def readDataLoop (mem : Nat → Nat) (address length offset : Nat) : ReadTrace :=
  if offset < length then
    let readSize := min 256 (length - offset)
    let readAddress := address + offset
    let readCmd := 0x03 :: addr24 readAddress
    let bytes := (List.range readSize).map fun i => mem (readAddress + i)
    let hexString := (bytes.map byteToHex).flatten
    let rest := readDataLoop mem address length (offset + 256)
    { transfers := (readCmd, readSize) :: rest.transfers
      hex := hexString ++ rest.hex
      progress := (((offset + readSize : Nat) : ℚ) / (length : ℚ) * 100) :: rest.progress }
  else
    { transfers := [], hex := [], progress := [] }
termination_by length - offset
decreasing_by omega

/-- The `readData` operation: connection guard, then the chunk loop; on
success the result is the concatenated hex string. -/
def readDataOp (s : UsbSession) (mem : Nat → Nat) (address length : Nat) :
    UsbSession × ReadTrace × Except String (List Char) :=
  if s.device = false ∨ s.isConnected = false then
    (s, { transfers := [], hex := [], progress := [] }, .error notConnectedMsg)
  else
    let r := readDataLoop mem address length 0
    (s, r, .ok r.hex)

/-- Observable behaviour of one `writeData` call: the page-program
commands sent, the number of 10 ms settle delays awaited, and the values
passed to the progress callback. -/
structure WriteTrace where
  commands : List (List Nat)
  settleDelays : Nat
  progress : List ℚ
deriving DecidableEq, Repr

/-- The `for (let offset = 0; offset < data.length; offset += pageSize)`
loop of `writeData`. -/
def writeDataLoop (address : Nat) (data : List Nat) (offset : Nat) : WriteTrace :=
  if offset < data.length then
    let writeSize := min 256 (data.length - offset)
    let writeAddress := address + offset
    let pageData := (data.drop offset).take writeSize
    let writeCmd := 0x02 :: (addr24 writeAddress ++ pageData)
    let rest := writeDataLoop address data (offset + 256)
    { commands := writeCmd :: rest.commands
      settleDelays := 1 + rest.settleDelays
      progress := (((offset + writeSize : Nat) : ℚ) / ((data.length : Nat) : ℚ) * 100) :: rest.progress }
  else
    { commands := [], settleDelays := 0, progress := [] }
termination_by data.length - offset
decreasing_by omega

/-- The `writeData` operation: connection guard, then the page loop. -/
def writeDataOp (s : UsbSession) (address : Nat) (data : List Nat) :
    UsbSession × WriteTrace × Except String Unit :=
  if s.device = false ∨ s.isConnected = false then
    (s, { commands := [], settleDelays := 0, progress := [] }, .error notConnectedMsg)
  else
    (s, writeDataLoop address data 0, .ok ())

/-- Observable behaviour of one `eraseChip` call. -/
structure EraseTrace where
  commands : List (List Nat)
  progress : List Nat
deriving DecidableEq, Repr

/-- The `for (let i = 0; i <= 100; i += 10)` simulated-progress ramp of
`eraseChip` (each step also awaits a 200 ms timer). -/
def eraseRamp (i : Nat) : List Nat :=
  if i ≤ 100 then i :: eraseRamp (i + 10)
  else []
termination_by 101 - i
decreasing_by omega

/-- The `eraseChip` operation: connection guard, the `[0xC7]` command,
then the simulated progress ramp. -/
def eraseChipOp (s : UsbSession) : UsbSession × EraseTrace × Except String Unit :=
  if s.device = false ∨ s.isConnected = false then
    (s, { commands := [], progress := [] }, .error notConnectedMsg)
  else
    (s, { commands := [[0xC7]], progress := eraseRamp 0 }, .ok ())

/-- Chip record returned by `detectChip`. -/
structure DetectedChip where
  manufacturerId : String
  deviceId : String
  name : String
  capacity : String
  blockSize : String
  pageSize : String
deriving DecidableEq, Repr

/-- Core of `detectChip` applied to the bytes returned by the
control-transfer-in (requested size 4): length check, ID parsing, and the
static identification table.  The error string is the wrapped message the
caller observes. -/
def detectChipCore (response : List Nat) : Except String DetectedChip :=
  if h : 3 ≤ response.length then
    let manufacturerId : String := ⟨byteToHex response[0]⟩
    let deviceId : String := ⟨wordToHex ((response[1] <<< 8) ||| response[2])⟩
    let chipInfo : DetectedChip :=
      { manufacturerId := manufacturerId, deviceId := deviceId,
        name := "Unknown Chip", capacity := "Unknown",
        blockSize := "64KB", pageSize := "256B" }
    if manufacturerId = "EF" ∧ deviceId = "4018" then
      .ok { chipInfo with name := "W25Q128FV", capacity := "16MB (128Mbit)" }
    else if manufacturerId = "C2" ∧ deviceId = "2017" then
      .ok { chipInfo with name := "MX25L6405D", capacity := "8MB (64Mbit)" }
    else
      .ok chipInfo
  else
    .error "Chip detection failed: Failed to read chip ID"

/-- The `detectChip` operation: connection guard, then the core. -/
def detectChipOp (s : UsbSession) (response : List Nat) :
    UsbSession × Except String DetectedChip :=
  if s.device = false ∨ s.isConnected = false then
    (s, .error notConnectedMsg)
  else
    (s, detectChipCore response)

/-- The `disconnect` method.  `teardownFails` models
`releaseInterface`/`close` throwing; in that case the `catch` block logs
the error and returns normally, and the assignments
`device = null; isConnected = false` placed after the awaited calls are
skipped. -/
def disconnectOp (s : UsbSession) (teardownFails : Bool) : Except String UsbSession :=
  if s.device then
    if teardownFails then .ok s
    else .ok { device := false, isConnected := false }
  else .ok s

/-- Standard UTF-8 encoding of one character, modelling
`TextEncoder.prototype.encode` character by character. -/
def utf8EncodeChar (c : Char) : List Nat :=
  let v := c.toNat
  if v < 0x80 then [v]
  else if v < 0x800 then
    [0xC0 ||| (v >>> 6), 0x80 ||| (v &&& 0x3F)]
  else if v < 0x10000 then
    [0xE0 ||| (v >>> 12), 0x80 ||| ((v >>> 6) &&& 0x3F), 0x80 ||| (v &&& 0x3F)]
  else
    [0xF0 ||| (v >>> 18), 0x80 ||| ((v >>> 12) &&& 0x3F),
     0x80 ||| ((v >>> 6) &&& 0x3F), 0x80 ||| (v &&& 0x3F)]

/-- UTF-8 encoding of a string given as its character list. -/
def utf8Encode (s : List Char) : List Nat := s.flatMap utf8EncodeChar

/-- The WebSerial `write(data)` method: requires an open writer, appends
`'\n'` when `data` does not already end with it, and sends the UTF-8
bytes.  `writerOpen` models `this.writer !== null`; the returned list is
what reaches `writer.write`. -/
def serialWrite (writerOpen : Bool) (data : List Char) : Except String (List Nat) :=
  if writerOpen = false then .error "Not connected to serial device"
  else
    let dataWithNewline := if data.getLast? = some '\n' then data else data ++ ['\n']
    .ok (utf8Encode dataWithNewline)

/-! Unfolding lemmas for the loop definitions. -/

theorem readDataLoop_step (mem : Nat → Nat) (a l o : Nat) (ho : o < l) :
    readDataLoop mem a l o =
      { transfers := (0x03 :: addr24 (a + o), min 256 (l - o)) ::
            (readDataLoop mem a l (o + 256)).transfers
        hex := (((List.range (min 256 (l - o))).map fun i => mem (a + o + i)).map
            byteToHex).flatten ++ (readDataLoop mem a l (o + 256)).hex
        progress := (((o + min 256 (l - o) : Nat) : ℚ) / (l : ℚ) * 100) ::
            (readDataLoop mem a l (o + 256)).progress } := by
  rw [readDataLoop, if_pos ho]

theorem readDataLoop_stop (mem : Nat → Nat) (a l o : Nat) (ho : ¬ o < l) :
    readDataLoop mem a l o = { transfers := [], hex := [], progress := [] } := by
  rw [readDataLoop, if_neg ho]

/-- Shifting a map over `List.range (m + 1)` into head and tail. -/
theorem range_map_succ_shift {α : Type} (g : ℕ → α) (m : ℕ) :
    (List.range (m + 1)).map g = g 0 :: (List.range m).map (fun k => g (k + 1)) := by
  rw [List.range_succ_eq_map, List.map_cons, List.map_map]
  rfl

set_option maxRecDepth 8000

/-- Closed form of the `readData` chunk loop, for every starting offset. -/
theorem readDataLoop_closed (mem : Nat → Nat) (a l : Nat) :
    ∀ n o, l - o ≤ n →
      readDataLoop mem a l o =
        { transfers := (List.range ((l - o + 255) / 256)).map fun k =>
            (0x03 :: addr24 (a + (o + 256 * k)), min 256 (l - (o + 256 * k)))
          hex := ((List.range (l - o)).map fun i => byteToHex (mem (a + o + i))).flatten
          progress := (List.range ((l - o + 255) / 256)).map fun k =>
            ((min (o + 256 * (k + 1)) l : Nat) : ℚ) / (l : ℚ) * 100 } := by
  intro n
  induction n with
  | zero =>
    intro o h
    rw [readDataLoop_stop mem a l o (by omega)]
    have h0 : l - o = 0 := by omega
    simp [h0]
  | succ n ih =>
    intro o h
    by_cases ho : o < l
    · rw [readDataLoop_step mem a l o ho, ih (o + 256) (by omega)]
      have hm : (l - o + 255) / 256 = (l - (o + 256) + 255) / 256 + 1 := by omega
      simp only [ReadTrace.mk.injEq]
      refine ⟨?_, ?_, ?_⟩
      · rw [hm, range_map_succ_shift]
        congr 1
        refine List.map_congr_left fun k _ => ?_
        have e1 : a + (o + 256 + 256 * k) = a + (o + 256 * (k + 1)) := by ring
        have e2 : l - (o + 256 + 256 * k) = l - (o + 256 * (k + 1)) := by omega
        rw [e1, e2]
      · have hsplit := congrArg List.range
          (show l - o = min 256 (l - o) + (l - (o + 256)) by omega)
        rw [hsplit, List.range_add, List.map_append, List.flatten_append, List.map_map]
        congr 1
        rw [List.map_map]
        refine congrArg List.flatten (List.map_congr_left fun i hi => ?_)
        have hi' : i < l - (o + 256) := List.mem_range.mp hi
        have hs : min 256 (l - o) = 256 := by omega
        simp only [Function.comp_apply, hs]
        have e1 : a + (o + 256) + i = a + o + (256 + i) := by ring
        rw [e1]
      · rw [hm, range_map_succ_shift]
        congr 1
        · have e1 : o + min 256 (l - o) = min (o + 256 * (0 + 1)) l := by omega
          rw [e1]
        · refine List.map_congr_left fun k _ => ?_
          have e1 : o + 256 + 256 * (k + 1) = o + 256 * (k + 1 + 1) := by ring
          rw [e1]
    · rw [readDataLoop_stop mem a l o ho]
      have h0 : l - o = 0 := by omega
      simp [h0]

theorem writeDataLoop_step (a : Nat) (d : List Nat) (o : Nat) (ho : o < d.length) :
    writeDataLoop a d o =
      { commands := (0x02 :: (addr24 (a + o) ++ (d.drop o).take (min 256 (d.length - o)))) ::
            (writeDataLoop a d (o + 256)).commands
        settleDelays := 1 + (writeDataLoop a d (o + 256)).settleDelays
        progress := (((o + min 256 (d.length - o) : Nat) : ℚ) / ((d.length : Nat) : ℚ) * 100) ::
            (writeDataLoop a d (o + 256)).progress } := by
  rw [writeDataLoop, if_pos ho]

theorem writeDataLoop_stop (a : Nat) (d : List Nat) (o : Nat) (ho : ¬ o < d.length) :
    writeDataLoop a d o = { commands := [], settleDelays := 0, progress := [] } := by
  rw [writeDataLoop, if_neg ho]

/-- Closed form of the `writeData` page loop, for every starting offset. -/
theorem writeDataLoop_closed (a : Nat) (d : List Nat) :
    ∀ n o, d.length - o ≤ n →
      writeDataLoop a d o =
        { commands := (List.range ((d.length - o + 255) / 256)).map fun k =>
            0x02 :: (addr24 (a + (o + 256 * k)) ++ (d.drop (o + 256 * k)).take 256)
          settleDelays := (d.length - o + 255) / 256
          progress := (List.range ((d.length - o + 255) / 256)).map fun k =>
            ((min (o + 256 * (k + 1)) d.length : Nat) : ℚ) / ((d.length : Nat) : ℚ) * 100 } := by
  intro n
  induction n with
  | zero =>
    intro o h
    rw [writeDataLoop_stop a d o (by omega)]
    have h0 : d.length - o = 0 := by omega
    simp [h0]
  | succ n ih =>
    intro o h
    by_cases ho : o < d.length
    · rw [writeDataLoop_step a d o ho, ih (o + 256) (by omega)]
      have hm : (d.length - o + 255) / 256 = (d.length - (o + 256) + 255) / 256 + 1 := by
        omega
      simp only [WriteTrace.mk.injEq]
      refine ⟨?_, by omega, ?_⟩
      · rw [hm, range_map_succ_shift]
        congr 1
        · have e1 : (d.drop o).take (min 256 (d.length - o)) = (d.drop o).take 256 := by
            rw [List.take_eq_take]
            simp only [List.length_drop]
            omega
          rw [e1]
          norm_num
        · refine List.map_congr_left fun k _ => ?_
          have e1 : a + (o + 256 + 256 * k) = a + (o + 256 * (k + 1)) := by ring
          have e2 : o + 256 + 256 * k = o + 256 * (k + 1) := by ring
          rw [e1, e2]
      · rw [hm, range_map_succ_shift]
        congr 1
        · have e1 : o + min 256 (d.length - o) = min (o + 256 * (0 + 1)) d.length := by
            omega
          rw [e1]
        · refine List.map_congr_left fun k _ => ?_
          have e1 : o + 256 + 256 * (k + 1) = o + 256 * (k + 1 + 1) := by ring
          rw [e1]
    · rw [writeDataLoop_stop a d o ho]
      have h0 : d.length - o = 0 := by omega
      simp [h0]

/-- The simulated erase ramp evaluates to the eleven steps 0,10,…,100. -/
theorem eraseRamp_zero :
    eraseRamp 0 = [0, 10, 20, 30, 40, 50, 60, 70, 80, 90, 100] := by
  simp [eraseRamp]

/-! Properties of the hex-string helpers. -/

theorem toString16_small (n : Nat) (h : n < 16) : toString16 n = [hexDigitChar n] := by
  rw [toString16, if_pos h]

theorem toString16_step (n : Nat) (h : ¬ n < 16) :
    toString16 n = toString16 (n / 16) ++ [hexDigitChar (n % 16)] := by
  rw [toString16, if_neg h]

theorem toString16_length_pos (n : Nat) : 1 ≤ (toString16 n).length := by
  by_cases h : n < 16
  · rw [toString16_small n h]; simp
  · rw [toString16_step n h]; simp

theorem toString16_length_le :
    ∀ k n : Nat, 1 ≤ k → n < 16 ^ k → (toString16 n).length ≤ k := by
  intro k
  induction k with
  | zero => intro n h; omega
  | succ k ih =>
    intro n _ hn
    by_cases h : n < 16
    · rw [toString16_small n h]; simp
    · rw [toString16_step n h]
      have hk : 1 ≤ k := by
        rcases Nat.eq_zero_or_pos k with hk0 | hk0
        · subst hk0; simp at hn; omega
        · exact hk0
      have hdiv : n / 16 < 16 ^ k := by
        rw [Nat.div_lt_iff_lt_mul (by norm_num)]
        calc n < 16 ^ (k + 1) := hn
        _ = 16 ^ k * 16 := by rw [pow_succ]
      have := ih (n / 16) hk hdiv
      simp only [List.length_append, List.length_cons, List.length_nil]
      omega

theorem toString16_mem :
    ∀ n : Nat, ∀ c ∈ toString16 n, ∃ d, d < 16 ∧ c = hexDigitChar d := by
  intro n
  induction n using Nat.strong_induction_on with
  | _ n ih =>
    intro c hc
    by_cases h : n < 16
    · rw [toString16_small n h] at hc
      simp only [List.mem_singleton] at hc
      exact ⟨n, h, hc⟩
    · rw [toString16_step n h] at hc
      rcases List.mem_append.mp hc with h1 | h2
      · exact ih (n / 16) (by omega) c h1
      · simp only [List.mem_singleton] at h2
        exact ⟨n % 16, by omega, h2⟩

theorem hexDigitChar_toUpper_mem :
    ∀ d : Nat, d < 16 → Char.toUpper (hexDigitChar d) ∈ upperHexChars := by decide

theorem padHex_mem (k b : Nat) (c : Char)
    (hc : c ∈ padStart k '0' ((toString16 b).map Char.toUpper)) : c ∈ upperHexChars := by
  rcases List.mem_append.mp hc with h1 | h2
  · have := List.eq_of_mem_replicate h1
    subst this
    decide
  · rcases List.mem_map.mp h2 with ⟨c1, hc1, rfl⟩
    rcases toString16_mem b c1 hc1 with ⟨d, hd, rfl⟩
    exact hexDigitChar_toUpper_mem d hd

theorem padStart_length (k : Nat) (c : Char) (s : List Char) (h : s.length ≤ k) :
    (padStart k c s).length = k := by
  simp [padStart]
  omega

theorem byteToHex_length (b : Nat) (hb : b < 256) : (byteToHex b).length = 2 := by
  have h1 : (toString16 b).length ≤ 2 :=
    toString16_length_le 2 b (by omega) (Nat.lt_of_lt_of_le hb (by norm_num))
  apply padStart_length
  simpa using h1

theorem byteToHex_mem (b : Nat) (c : Char) (hc : c ∈ byteToHex b) : c ∈ upperHexChars :=
  padHex_mem 2 b c hc

theorem wordToHex_length (w : Nat) (hw : w < 65536) : (wordToHex w).length = 4 := by
  have h1 : (toString16 w).length ≤ 4 :=
    toString16_length_le 4 w (by omega) (Nat.lt_of_lt_of_le hw (by norm_num))
  apply padStart_length
  simpa using h1

theorem wordToHex_mem (w : Nat) (c : Char) (hc : c ∈ wordToHex w) : c ∈ upperHexChars :=
  padHex_mem 4 w c hc

/-! Arithmetic bridges between the JavaScript bit operations and plain
division/remainder arithmetic. -/

theorem addr24_eq (x : Nat) : addr24 x = [x / 65536 % 256, x / 256 % 256, x % 256] := by
  have h255 : (255 : Nat) = 2 ^ 8 - 1 := by norm_num
  simp only [addr24, h255, Nat.and_pow_two_sub_one_eq_mod, Nat.shiftRight_eq_div_pow]

theorem addr24_decode (x : Nat) : decodeBE3 (addr24 x) = x % 2 ^ 24 := by
  rw [addr24_eq]
  simp only [decodeBE3]
  omega

theorem shiftLeft8_lor_eq (x y : Nat) (hy : y < 256) : (x <<< 8) ||| y = 256 * x + y := by
  apply Nat.eq_of_testBit_eq
  intro i
  rw [Nat.testBit_lor, Nat.testBit_shiftLeft]
  by_cases hi : i < 8
  · have h8 : ¬ (8 ≤ i) := by omega
    simp only [ge_iff_le, h8, decide_False, Bool.false_and, Bool.false_or]
    have hmp := Nat.testBit_mod_two_pow (256 * x + y) 8 i
    have hmod : (256 * x + y) % 2 ^ 8 = y := by
      have h28 : (2 : Nat) ^ 8 = 256 := by norm_num
      rw [h28]
      omega
    rw [hmod] at hmp
    rw [hmp]
    simp [hi]
  · have h8 : (8 : Nat) ≤ i := by omega
    simp only [ge_iff_le, h8, decide_True, Bool.true_and]
    have hy0 : y.testBit i = false := by
      apply Nat.testBit_lt_two_pow
      have : (256 : Nat) ≤ 2 ^ i := by
        calc (256 : Nat) = 2 ^ 8 := by norm_num
        _ ≤ 2 ^ i := Nat.pow_le_pow_right (by norm_num) h8
      omega
    rw [hy0, Bool.or_false]
    rw [Nat.testBit_to_div_mod, Nat.testBit_to_div_mod]
    have hdiv : (256 * x + y) / 2 ^ i = x / 2 ^ (i - 8) := by
      have h2 : (2 : Nat) ^ i = 2 ^ 8 * 2 ^ (i - 8) := by
        rw [← pow_add]
        congr 1
        omega
      rw [h2, ← Nat.div_div_eq_div_mul]
      have h28 : (2 : Nat) ^ 8 = 256 := by norm_num
      rw [h28]
      congr 1
      omega
    rw [hdiv]

/-! Shape of the chunk-size sequence. -/

theorem chunkSizes_eq (l : Nat) :
    (List.range ((l + 255) / 256)).map (fun k => min 256 (l - 256 * k)) =
      List.replicate (l / 256) 256 ++ (if l % 256 = 0 then [] else [l % 256]) := by
  by_cases hm : l % 256 = 0
  · rw [if_pos hm, List.append_nil]
    apply List.ext_getElem
    · simp
      omega
    · intro i h1 h2
      simp only [List.getElem_map, List.getElem_range, List.getElem_replicate]
      simp only [List.length_replicate] at h2
      omega
  · rw [if_neg hm]
    apply List.ext_getElem
    · simp
      omega
    · intro i h1 h2
      simp only [List.getElem_map, List.getElem_range]
      by_cases hi : i < l / 256
      · rw [List.getElem_append_left (by simpa using hi)]
        rw [List.getElem_replicate]
        omega
      · rw [List.getElem_append_right (by simpa using hi)]
        simp only [List.length_replicate]
        simp only [List.length_map, List.length_range] at h1
        have : i = l / 256 := by omega
        subst this
        simp
        omega

/-- A map of a pointwise-monotone function over `List.range` is a
`≤`-chain. -/
theorem chain'_le_range_map (g : ℕ → ℚ) (m : ℕ) (hg : ∀ k, g k ≤ g (k + 1)) :
    List.Chain' (· ≤ ·) ((List.range m).map g) := by
  rw [List.chain'_map]
  cases m with
  | zero => simp
  | succ m =>
    rw [List.chain'_range_succ]
    intro i _
    exact hg i

/-! Claim theorems. -/

/-- C1: with a session open and every control-transfer-in returning
exactly the requested number of bytes, `readData` iterates in 256-byte
chunks (for `length` not a multiple of 256 the final chunk has size
`length % 256`), sends for each chunk the command `[0x03, hi, mid, lo]`
carrying the 24-bit big-endian address `address + offset`, and returns
the hex-encoded concatenation of the chunks in address order — exactly
`2 * length` uppercase hex characters. -/
theorem readData_spec (s : UsbSession) (mem : Nat → Nat) (a l : Nat)
    (hd : s.device = true) (hc : s.isConnected = true) (hl : 1 ≤ l)
    (hmem : ∀ x, mem x < 256) :
    (readDataOp s mem a l).2.2 = .ok (readDataOp s mem a l).2.1.hex ∧
    (readDataOp s mem a l).2.1.transfers =
      (List.range ((l + 255) / 256)).map (fun k =>
        (0x03 :: addr24 (a + 256 * k), min 256 (l - 256 * k))) ∧
    (readDataOp s mem a l).2.1.transfers.map Prod.snd =
      List.replicate (l / 256) 256 ++ (if l % 256 = 0 then [] else [l % 256]) ∧
    (∀ x, decodeBE3 (addr24 x) = x % 2 ^ 24) ∧
    (readDataOp s mem a l).2.1.hex =
      ((List.range l).map fun i => byteToHex (mem (a + i))).flatten ∧
    (readDataOp s mem a l).2.1.hex.length = 2 * l ∧
    (∀ c ∈ (readDataOp s mem a l).2.1.hex, c ∈ upperHexChars) := by
  have hop : readDataOp s mem a l =
      (s, readDataLoop mem a l 0, .ok (readDataLoop mem a l 0).hex) := by
    simp [readDataOp, hd, hc]
  have hproj : (readDataOp s mem a l).2.1 = readDataLoop mem a l 0 := by rw [hop]
  have hres : (readDataOp s mem a l).2.2 = .ok (readDataLoop mem a l 0).hex := by
    rw [hop]
  have hr := readDataLoop_closed mem a l l 0 (by omega)
  simp only [Nat.zero_add, Nat.sub_zero, Nat.add_zero] at hr
  have htrans : (readDataOp s mem a l).2.1.transfers =
      (List.range ((l + 255) / 256)).map (fun k =>
        (0x03 :: addr24 (a + 256 * k), min 256 (l - 256 * k))) := by
    rw [hproj, hr]
  have hhex : (readDataOp s mem a l).2.1.hex =
      ((List.range l).map fun i => byteToHex (mem (a + i))).flatten := by
    rw [hproj, hr]
  refine ⟨?_, htrans, ?_, fun x => addr24_decode x, hhex, ?_, ?_⟩
  · rw [hres, hproj]
  · rw [htrans, List.map_map]
    exact chunkSizes_eq l
  · rw [hhex, List.length_flatten, List.map_map]
    have hmap : (List.range l).map
        (List.length ∘ fun i => byteToHex (mem (a + i))) = List.replicate l 2 := by
      rw [show (List.length ∘ fun i => byteToHex (mem (a + i))) = fun _ : ℕ => 2 from
        funext fun i => byteToHex_length (mem (a + i)) (hmem (a + i))]
      simp [List.map_const']
    rw [hmap, List.sum_replicate, smul_eq_mul]
    omega
  · intro c hcmem
    rw [hhex] at hcmem
    rcases List.mem_flatten.mp hcmem with ⟨chunk, hchunk, hcc⟩
    rcases List.mem_map.mp hchunk with ⟨i, _, rfl⟩
    exact byteToHex_mem (mem (a + i)) c hcc

/-- Witness for C1 at `length = 300`: the chunk sizes are 256 then 44. -/
theorem readData_spec_witness :
    (readDataOp ⟨true, true⟩ (fun _ => 171) 0 300).2.1.transfers.map Prod.snd =
      List.replicate (300 / 256) 256 ++ (if 300 % 256 = 0 then [] else [300 % 256]) :=
  (readData_spec ⟨true, true⟩ (fun _ => 171) 0 300 rfl rfl (by omega)
    (by intro x; norm_num)).2.2.1

/-- C2: with a session open, `writeData` issues exactly `⌈n / 256⌉`
page-program commands; the `k`-th command is `[0x02, hi, mid, lo]`
followed by the next `min 256 (n - 256 * k)` bytes of the input, where
the three bytes encode the 24-bit big-endian address
`address + 256 * k`, so every command carries at most 256 data bytes and
consecutive addresses differ by exactly the page size sent. -/
theorem writeData_spec (s : UsbSession) (a : Nat) (d : List Nat)
    (hd : s.device = true) (hc : s.isConnected = true) (hn : 1 ≤ d.length) :
    (writeDataOp s a d).2.2 = .ok () ∧
    (writeDataOp s a d).2.1.commands =
      (List.range ((d.length + 255) / 256)).map (fun k =>
        0x02 :: (addr24 (a + 256 * k) ++ (d.drop (256 * k)).take 256)) ∧
    (writeDataOp s a d).2.1.commands.length = (d.length + 255) / 256 ∧
    (∀ k, ((d.drop (256 * k)).take 256).length = min 256 (d.length - 256 * k)) ∧
    (∀ k, k + 1 < (d.length + 255) / 256 →
      ((d.drop (256 * k)).take 256).length = 256) ∧
    (∀ x, decodeBE3 (addr24 x) = x % 2 ^ 24) ∧
    (∀ cmd ∈ (writeDataOp s a d).2.1.commands, cmd.length ≤ 4 + 256) := by
  have hop : writeDataOp s a d = (s, writeDataLoop a d 0, .ok ()) := by
    simp [writeDataOp, hd, hc]
  have hproj : (writeDataOp s a d).2.1 = writeDataLoop a d 0 := by rw [hop]
  have hw := writeDataLoop_closed a d d.length 0 (by omega)
  simp only [Nat.zero_add, Nat.sub_zero, Nat.add_zero] at hw
  have hcmds : (writeDataOp s a d).2.1.commands =
      (List.range ((d.length + 255) / 256)).map (fun k =>
        0x02 :: (addr24 (a + 256 * k) ++ (d.drop (256 * k)).take 256)) := by
    rw [hproj, hw]
  have hlen : ∀ k, ((d.drop (256 * k)).take 256).length =
      min 256 (d.length - 256 * k) := by
    intro k
    simp [List.length_take, List.length_drop]
  refine ⟨by rw [hop], hcmds, ?_, hlen, ?_, fun x => addr24_decode x, ?_⟩
  · rw [hcmds]
    simp
  · intro k hk
    rw [hlen k]
    omega
  · intro cmd hcmd
    rw [hcmds] at hcmd
    rcases List.mem_map.mp hcmd with ⟨k, _, rfl⟩
    have h3 : (addr24 (a + 256 * k)).length = 3 := by simp [addr24]
    have h4 : ((d.drop (256 * k)).take 256).length ≤ 256 := by
      rw [hlen k]
      omega
    simp only [List.length_cons, List.length_append]
    omega

/-- Witness for C2 at a 300-byte input: two commands are issued. -/
theorem writeData_spec_witness :
    (writeDataOp ⟨true, true⟩ 0 (List.replicate 300 7)).2.1.commands.length =
      ((List.replicate 300 7 : List Nat).length + 255) / 256 :=
  (writeData_spec ⟨true, true⟩ 0 (List.replicate 300 7) rfl rfl (by simp)).2.2.1

/-- C10: `writeData` with an empty byte array succeeds while sending no
command, awaiting no settle delay and reporting no progress, so its
progress sequence is empty and never reaches 100. -/
theorem writeData_empty (s : UsbSession) (a : Nat)
    (hd : s.device = true) (hc : s.isConnected = true) :
    writeDataOp s a [] =
      (s, { commands := [], settleDelays := 0, progress := [] }, .ok ()) ∧
    (100 : ℚ) ∉ (writeDataOp s a []).2.1.progress := by
  have hop : writeDataOp s a [] = (s, writeDataLoop a [] 0, .ok ()) := by
    simp [writeDataOp, hd, hc]
  have hloop : writeDataLoop a ([] : List Nat) 0 =
      { commands := [], settleDelays := 0, progress := [] } :=
    writeDataLoop_stop a [] 0 (by simp)
  have hproj : (writeDataOp s a []).2.1 = writeDataLoop a [] 0 := by rw [hop]
  constructor
  · rw [hop, hloop]
  · rw [hproj, hloop]
    simp

/-- Witness for C10. -/
theorem writeData_empty_witness :
    writeDataOp ⟨true, true⟩ 0 [] =
      (⟨true, true⟩, { commands := [], settleDelays := 0, progress := [] }, .ok ()) ∧
    (100 : ℚ) ∉ (writeDataOp ⟨true, true⟩ 0 []).2.1.progress :=
  writeData_empty ⟨true, true⟩ 0 rfl rfl

/-- C6: every USB data operation invoked without an open session rejects
with the "not connected" message, performs no control transfer (empty
trace), and leaves the session state unchanged. -/
theorem notConnected_spec (s : UsbSession) (mem : Nat → Nat) (a l : Nat)
    (d r : List Nat) (h : ¬ (s.device = true ∧ s.isConnected = true)) :
    readDataOp s mem a l =
      (s, { transfers := [], hex := [], progress := [] }, .error notConnectedMsg) ∧
    writeDataOp s a d =
      (s, { commands := [], settleDelays := 0, progress := [] }, .error notConnectedMsg) ∧
    eraseChipOp s = (s, { commands := [], progress := [] }, .error notConnectedMsg) ∧
    detectChipOp s r = (s, .error notConnectedMsg) := by
  have hcond : s.device = false ∨ s.isConnected = false := by
    rcases s with ⟨d1, c1⟩
    cases d1 <;> cases c1 <;> simp_all
  refine ⟨?_, ?_, ?_, ?_⟩
  · simp only [readDataOp]
    rw [if_pos hcond]
  · simp only [writeDataOp]
    rw [if_pos hcond]
  · simp only [eraseChipOp]
    rw [if_pos hcond]
  · simp only [detectChipOp]
    rw [if_pos hcond]

/-- Witness for C6 in the never-connected state. -/
theorem notConnected_spec_witness :
    readDataOp ⟨false, false⟩ (fun _ => 0) 0 16 =
      (⟨false, false⟩, { transfers := [], hex := [], progress := [] },
        .error notConnectedMsg) ∧
    writeDataOp ⟨false, false⟩ 0 [1] =
      (⟨false, false⟩, { commands := [], settleDelays := 0, progress := [] },
        .error notConnectedMsg) ∧
    eraseChipOp ⟨false, false⟩ =
      (⟨false, false⟩, { commands := [], progress := [] }, .error notConnectedMsg) ∧
    detectChipOp ⟨false, false⟩ [0xEF, 0x40, 0x18] =
      (⟨false, false⟩, .error notConnectedMsg) :=
  notConnected_spec ⟨false, false⟩ (fun _ => 0) 0 16 [1] [0xEF, 0x40, 0x18]
    (by simp)

/-- Monotone progress that ends at exactly 100 and hits 100 only at the
last report (rational-valued callbacks). -/
def GoodProgress (p : List ℚ) : Prop :=
  p.Chain' (· ≤ ·) ∧ p.getLast? = some 100 ∧
    ∀ i : Fin p.length, (i : ℕ) + 1 < p.length → p.get i < 100

/-- Monotone progress that ends at exactly 100 and hits 100 only at the
last report (natural-valued callbacks, as in the erase ramp). -/
def GoodProgressN (p : List Nat) : Prop :=
  p.Chain' (· ≤ ·) ∧ p.getLast? = some 100 ∧
    ∀ i : Fin p.length, (i : ℕ) + 1 < p.length → p.get i < 100

/-- The cumulative progress sequence `min (256*(k+1)) l / l * 100` of the
read/write loops is good whenever at least one byte is processed. -/
theorem goodProgress_rangeMap (l : Nat) (hl : 1 ≤ l) :
    GoodProgress ((List.range ((l + 255) / 256)).map fun k =>
      ((min (256 * (k + 1)) l : Nat) : ℚ) / (l : ℚ) * 100) := by
  have hlq : (0 : ℚ) < (l : ℚ) := by
    exact_mod_cast Nat.lt_of_lt_of_le Nat.zero_lt_one hl
  refine ⟨?_, ?_, ?_⟩
  · apply chain'_le_range_map
    intro k
    apply mul_le_mul_of_nonneg_right _ (by norm_num : (0 : ℚ) ≤ 100)
    apply div_le_div_of_nonneg_right _ (le_of_lt hlq)
    exact_mod_cast (by omega : min (256 * (k + 1)) l ≤ min (256 * (k + 1 + 1)) l)
  · have hm : (l + 255) / 256 = ((l + 255) / 256 - 1) + 1 := by omega
    rw [hm, List.range_succ, List.map_append, List.map_cons, List.map_nil,
      List.getLast?_concat]
    have hmin : min (256 * ((l + 255) / 256 - 1 + 1)) l = l := by omega
    rw [hmin]
    rw [div_self (ne_of_gt hlq)]
    norm_num
  · intro i hi
    have hlen : (i : ℕ) + 1 < (l + 255) / 256 := by
      simpa using hi
    rw [List.get_eq_getElem, List.getElem_map, List.getElem_range]
    have hmin : min (256 * ((i : ℕ) + 1)) l = 256 * ((i : ℕ) + 1) := by omega
    rw [hmin]
    have hx : ((256 * ((i : ℕ) + 1) : Nat) : ℚ) < (l : ℚ) := by
      exact_mod_cast (by omega : 256 * ((i : ℕ) + 1) < l)
    have h1 : ((256 * ((i : ℕ) + 1) : Nat) : ℚ) / (l : ℚ) < 1 :=
      (div_lt_one hlq).mpr hx
    calc ((256 * ((i : ℕ) + 1) : Nat) : ℚ) / (l : ℚ) * 100
        < 1 * 100 := by
          apply mul_lt_mul_of_pos_right h1 (by norm_num)
    _ = 100 := by norm_num

/-- C3 counterexample: a successful `writeData` call with an empty input
and a progress callback makes no callback invocation at all, so the final
invocation cannot report 100 — the progress value sequence is empty. -/
theorem progress_spec_counterexample :
    (writeDataOp ⟨true, true⟩ 0 []).2.2 = .ok () ∧
    ¬ ((writeDataOp ⟨true, true⟩ 0 []).2.1.progress.getLast? = some 100) := by
  have hop : writeDataOp ⟨true, true⟩ 0 [] =
      (⟨true, true⟩, writeDataLoop 0 [] 0, .ok ()) := by
    simp [writeDataOp]
  have hloop : writeDataLoop 0 ([] : List Nat) 0 =
      { commands := [], settleDelays := 0, progress := [] } :=
    writeDataLoop_stop 0 [] 0 (by simp)
  have hproj : (writeDataOp ⟨true, true⟩ 0 []).2.1 = writeDataLoop 0 [] 0 := by
    rw [hop]
  constructor
  · rw [hop]
  · rw [hproj, hloop]
    simp

/-- C3 (amended): for `readData` with `length ≥ 1`, `writeData` with a
nonempty input, and `eraseChip` unconditionally, a successful call with a
progress callback reports a monotonically non-decreasing sequence whose
final value is exactly 100, and 100 is reported only as the final value. -/
theorem progress_spec :
    (∀ (s : UsbSession) (mem : Nat → Nat) (a l : Nat),
      s.device = true → s.isConnected = true → 1 ≤ l →
      GoodProgress (readDataOp s mem a l).2.1.progress) ∧
    (∀ (s : UsbSession) (a : Nat) (d : List Nat),
      s.device = true → s.isConnected = true → 1 ≤ d.length →
      GoodProgress (writeDataOp s a d).2.1.progress) ∧
    (∀ s : UsbSession, s.device = true → s.isConnected = true →
      GoodProgressN (eraseChipOp s).2.1.progress) := by
  refine ⟨?_, ?_, ?_⟩
  · intro s mem a l hd hc hl
    have hop : readDataOp s mem a l =
        (s, readDataLoop mem a l 0, .ok (readDataLoop mem a l 0).hex) := by
      simp [readDataOp, hd, hc]
    have hproj : (readDataOp s mem a l).2.1 = readDataLoop mem a l 0 := by rw [hop]
    have hr := readDataLoop_closed mem a l l 0 (by omega)
    simp only [Nat.zero_add, Nat.sub_zero, Nat.add_zero] at hr
    have hprog : (readDataOp s mem a l).2.1.progress =
        (List.range ((l + 255) / 256)).map fun k =>
          ((min (256 * (k + 1)) l : Nat) : ℚ) / (l : ℚ) * 100 := by
      rw [hproj, hr]
    rw [hprog]
    exact goodProgress_rangeMap l hl
  · intro s a d hd hc hn
    have hop : writeDataOp s a d = (s, writeDataLoop a d 0, .ok ()) := by
      simp [writeDataOp, hd, hc]
    have hproj : (writeDataOp s a d).2.1 = writeDataLoop a d 0 := by rw [hop]
    have hw := writeDataLoop_closed a d d.length 0 (by omega)
    simp only [Nat.zero_add, Nat.sub_zero, Nat.add_zero] at hw
    have hprog : (writeDataOp s a d).2.1.progress =
        (List.range ((d.length + 255) / 256)).map fun k =>
          ((min (256 * (k + 1)) d.length : Nat) : ℚ) / ((d.length : Nat) : ℚ) * 100 := by
      rw [hproj, hw]
    rw [hprog]
    exact goodProgress_rangeMap d.length hn
  · intro s hd hc
    have hprog : (eraseChipOp s).2.1.progress = eraseRamp 0 := by
      simp [eraseChipOp, hd, hc]
    rw [hprog, eraseRamp_zero]
    refine ⟨?_, by simp, ?_⟩
    · simp [List.chain'_cons]
    · decide

/-- Witness for C3 (amended) at a 300-byte read, a 3-byte write and an
erase. -/
theorem progress_spec_witness :
    GoodProgress (readDataOp ⟨true, true⟩ (fun _ => 171) 0 300).2.1.progress ∧
    GoodProgress (writeDataOp ⟨true, true⟩ 0 [1, 2, 3]).2.1.progress ∧
    GoodProgressN (eraseChipOp ⟨true, true⟩).2.1.progress :=
  ⟨progress_spec.1 ⟨true, true⟩ (fun _ => 171) 0 300 rfl rfl (by omega),
   progress_spec.2.1 ⟨true, true⟩ 0 [1, 2, 3] rfl rfl (by simp),
   progress_spec.2.2 ⟨true, true⟩ rfl rfl⟩

/-- C8: a successful `eraseChip` call sends the single `[0xC7]` command
and invokes the progress callback exactly 11 times with the values
0, 10, 20, …, 100 in that order; the operation resolves only after the
whole simulated ramp (elapsed time, not a hardware status). -/
theorem eraseChip_spec (s : UsbSession)
    (hd : s.device = true) (hc : s.isConnected = true) :
    (eraseChipOp s).2.2 = .ok () ∧
    (eraseChipOp s).2.1.commands = [[0xC7]] ∧
    (eraseChipOp s).2.1.progress =
      [0, 10, 20, 30, 40, 50, 60, 70, 80, 90, 100] ∧
    (eraseChipOp s).2.1.progress.length = 11 := by
  have hop : eraseChipOp s =
      (s, { commands := [[0xC7]], progress := eraseRamp 0 }, .ok ()) := by
    simp [eraseChipOp, hd, hc]
  have hproj : (eraseChipOp s).2.1 =
      ({ commands := [[0xC7]], progress := eraseRamp 0 } : EraseTrace) := by
    rw [hop]
  refine ⟨by rw [hop], by rw [hproj], ?_, ?_⟩
  · rw [hproj]
    exact eraseRamp_zero
  · rw [hproj]
    rw [show ({ commands := [[0xC7]], progress := eraseRamp 0 } : EraseTrace).progress
      = eraseRamp 0 from rfl, eraseRamp_zero]
    rfl

/-- Witness for C8. -/
theorem eraseChip_spec_witness :
    (eraseChipOp ⟨true, true⟩).2.2 = .ok () ∧
    (eraseChipOp ⟨true, true⟩).2.1.commands = [[0xC7]] ∧
    (eraseChipOp ⟨true, true⟩).2.1.progress =
      [0, 10, 20, 30, 40, 50, 60, 70, 80, 90, 100] ∧
    (eraseChipOp ⟨true, true⟩).2.1.progress.length = 11 :=
  eraseChip_spec ⟨true, true⟩ rfl rfl

/-- Characterisation of a successful `detectChip` parse: shared between
the table and the parsing claims. -/
theorem detectChipCore_ok (r : List Nat) (h : 3 ≤ r.length) :
    ∃ chip, detectChipCore r = .ok chip ∧
      chip.manufacturerId = (⟨byteToHex r[0]⟩ : String) ∧
      chip.deviceId = (⟨wordToHex ((r[1] <<< 8) ||| r[2])⟩ : String) ∧
      chip.blockSize = "64KB" ∧ chip.pageSize = "256B" ∧
      ((chip.manufacturerId = "EF" ∧ chip.deviceId = "4018") →
        chip.name = "W25Q128FV" ∧ chip.capacity = "16MB (128Mbit)") ∧
      ((chip.manufacturerId = "C2" ∧ chip.deviceId = "2017") →
        chip.name = "MX25L6405D" ∧ chip.capacity = "8MB (64Mbit)") ∧
      (¬ (chip.manufacturerId = "EF" ∧ chip.deviceId = "4018") →
       ¬ (chip.manufacturerId = "C2" ∧ chip.deviceId = "2017") →
        chip.name = "Unknown Chip" ∧ chip.capacity = "Unknown") := by
  rcases hcore : detectChipCore r with e | chip
  · exfalso
    simp only [detectChipCore] at hcore
    rw [dif_pos h] at hcore
    split at hcore
    · simp_all
    · split at hcore <;> simp_all
  · refine ⟨chip, rfl, ?_⟩
    have hcore2 := hcore
    simp only [detectChipCore] at hcore2
    rw [dif_pos h] at hcore2
    split at hcore2
    next hc1 =>
      rw [Except.ok.injEq] at hcore2
      subst hcore2
      exact ⟨rfl, rfl, rfl, rfl, fun _ => ⟨rfl, rfl⟩,
        fun hcc => absurd (hc1.1.symm.trans hcc.1) (by decide),
        fun hne _ => absurd ⟨hc1.1, hc1.2⟩ hne⟩
    next hc1 =>
      split at hcore2
      next hc2 =>
        rw [Except.ok.injEq] at hcore2
        subst hcore2
        exact ⟨rfl, rfl, rfl, rfl,
          fun hEF => absurd ⟨hEF.1, hEF.2⟩ hc1,
          fun _ => ⟨rfl, rfl⟩,
          fun _ hn2 => absurd ⟨hc2.1, hc2.2⟩ hn2⟩
      next hc2 =>
        rw [Except.ok.injEq] at hcore2
        subst hcore2
        exact ⟨rfl, rfl, rfl, rfl,
          fun hEF => absurd ⟨hEF.1, hEF.2⟩ hc1,
          fun hC2 => absurd ⟨hC2.1, hC2.2⟩ hc2,
          fun _ _ => ⟨rfl, rfl⟩⟩

/-- C4: on a read-ID response of at least 3 bytes, `detectChip` returns
"W25Q128FV" / "16MB (128Mbit)" for the ID pair (EF, 4018),
"MX25L6405D" / "8MB (64Mbit)" for (C2, 2017), and for every other pair a
record named "Unknown Chip" with capacity "Unknown"; the block size is
"64KB" and the page size "256B". -/
theorem detectChip_table (r : List Nat) (h : 3 ≤ r.length) :
    ∃ chip, detectChipCore r = .ok chip ∧
      ((chip.manufacturerId = "EF" ∧ chip.deviceId = "4018") →
        chip.name = "W25Q128FV" ∧ chip.capacity = "16MB (128Mbit)") ∧
      ((chip.manufacturerId = "C2" ∧ chip.deviceId = "2017") →
        chip.name = "MX25L6405D" ∧ chip.capacity = "8MB (64Mbit)") ∧
      (¬ (chip.manufacturerId = "EF" ∧ chip.deviceId = "4018") →
       ¬ (chip.manufacturerId = "C2" ∧ chip.deviceId = "2017") →
        chip.name = "Unknown Chip" ∧ chip.capacity = "Unknown" ∧
        chip.blockSize = "64KB" ∧ chip.pageSize = "256B") := by
  obtain ⟨chip, hok, _, _, hbs, hps, h1, h2, h3⟩ := detectChipCore_ok r h
  exact ⟨chip, hok, h1, h2, fun ha hb => ⟨(h3 ha hb).1, (h3 ha hb).2, hbs, hps⟩⟩

/-- Witness for C4 on the Winbond ID response EF 40 18. -/
theorem detectChip_table_witness :
    ∃ chip, detectChipCore [0xEF, 0x40, 0x18] = .ok chip ∧
      ((chip.manufacturerId = "EF" ∧ chip.deviceId = "4018") →
        chip.name = "W25Q128FV" ∧ chip.capacity = "16MB (128Mbit)") ∧
      ((chip.manufacturerId = "C2" ∧ chip.deviceId = "2017") →
        chip.name = "MX25L6405D" ∧ chip.capacity = "8MB (64Mbit)") ∧
      (¬ (chip.manufacturerId = "EF" ∧ chip.deviceId = "4018") →
       ¬ (chip.manufacturerId = "C2" ∧ chip.deviceId = "2017") →
        chip.name = "Unknown Chip" ∧ chip.capacity = "Unknown" ∧
        chip.blockSize = "64KB" ∧ chip.pageSize = "256B") :=
  detectChip_table [0xEF, 0x40, 0x18] (by simp)

/-- C5: `detectChip` fails (with the wrapped detection error) exactly
when the response carries fewer than 3 bytes; with at least 3 bytes,
byte 0 is rendered as the 2-digit uppercase-hex manufacturer ID and bytes
1-2, big-endian (`256 * b1 + b2`), as the 4-digit uppercase-hex device
ID. -/
theorem detectChip_parse (r : List Nat) :
    ((∃ e, detectChipCore r = .error e) ↔ r.length < 3) ∧
    (∀ h : 3 ≤ r.length, (∀ b ∈ r, b < 256) →
      ∃ chip, detectChipCore r = .ok chip ∧
        chip.manufacturerId = (⟨byteToHex r[0]⟩ : String) ∧
        chip.deviceId = (⟨wordToHex (256 * r[1] + r[2])⟩ : String) ∧
        chip.manufacturerId.data.length = 2 ∧
        chip.deviceId.data.length = 4 ∧
        (∀ c ∈ chip.manufacturerId.data, c ∈ upperHexChars) ∧
        (∀ c ∈ chip.deviceId.data, c ∈ upperHexChars)) := by
  constructor
  · constructor
    · rintro ⟨e, he⟩
      by_contra hge
      push_neg at hge
      obtain ⟨chip, hok, _⟩ := detectChipCore_ok r hge
      rw [hok] at he
      exact absurd he (by simp)
    · intro hlt
      refine ⟨"Chip detection failed: Failed to read chip ID", ?_⟩
      simp only [detectChipCore]
      rw [dif_neg (by omega)]
  · intro h hb
    obtain ⟨chip, hok, hmid, hdid, _, _, _, _, _⟩ := detectChipCore_ok r h
    have hb0 : r[0] < 256 := hb _ (List.getElem_mem _)
    have hb1 : r[1] < 256 := hb _ (List.getElem_mem _)
    have hb2 : r[2] < 256 := hb _ (List.getElem_mem _)
    have hlor : (r[1] <<< 8) ||| r[2] = 256 * r[1] + r[2] :=
      shiftLeft8_lor_eq _ _ hb2
    refine ⟨chip, hok, hmid, ?_, ?_, ?_, ?_, ?_⟩
    · rw [hdid, hlor]
    · rw [hmid]
      exact byteToHex_length _ hb0
    · rw [hdid, hlor]
      have hlt : 256 * r[1] + r[2] < 65536 := by omega
      exact wordToHex_length _ hlt
    · rw [hmid]
      intro c hcx
      exact byteToHex_mem _ c hcx
    · rw [hdid, hlor]
      intro c hcx
      exact wordToHex_mem _ c hcx

/-- Witness for C5 on the response EF 40 18. -/
theorem detectChip_parse_witness :
    ∃ chip, detectChipCore [0xEF, 0x40, 0x18] = .ok chip ∧
      chip.manufacturerId = (⟨byteToHex ([0xEF, 0x40, 0x18] : List Nat)[0]⟩ : String) ∧
      chip.deviceId =
        (⟨wordToHex (256 * ([0xEF, 0x40, 0x18] : List Nat)[1] +
          ([0xEF, 0x40, 0x18] : List Nat)[2])⟩ : String) ∧
      chip.manufacturerId.data.length = 2 ∧
      chip.deviceId.data.length = 4 ∧
      (∀ c ∈ chip.manufacturerId.data, c ∈ upperHexChars) ∧
      (∀ c ∈ chip.deviceId.data, c ∈ upperHexChars) :=
  (detectChip_parse [0xEF, 0x40, 0x18]).2 (by simp) (by decide)

/-- C7 counterexample: with a held device handle and a failing platform
teardown, `disconnect()` returns normally but leaves the device handle
and the connected flag set — the session state is not cleared. -/
theorem disconnect_counterexample :
    disconnectOp { device := true, isConnected := true } true =
      .ok { device := true, isConnected := true } ∧
    disconnectOp { device := true, isConnected := true } true ≠
      .ok { device := false, isConnected := false } := by
  constructor
  · rfl
  · intro hcontra
    simp only [disconnectOp] at hcontra
    simp at hcontra

/-- C7 (amended): `disconnect()` never re-throws a teardown failure; when
teardown succeeds the session state is cleared, but when teardown fails
the device handle and connected flag are left unchanged (the disconnected
logical state is not reached in that case). -/
theorem disconnect_spec (s : UsbSession) (teardownFails : Bool) :
    ∃ s2, disconnectOp s teardownFails = .ok s2 ∧
      (s.device = true → teardownFails = false →
        s2.device = false ∧ s2.isConnected = false) ∧
      (teardownFails = true → s2 = s) ∧
      (s.device = false → s2 = s) := by
  rcases s with ⟨d1, c1⟩
  cases d1 <;> cases teardownFails <;>
    exact ⟨_, rfl, by simp, by simp, by simp⟩

/-- Witness for C7 (amended): successful teardown from a connected
session clears the state. -/
theorem disconnect_spec_witness :
    ∃ s2, disconnectOp { device := true, isConnected := true } false = .ok s2 ∧
      ((true : Bool) = true → (false : Bool) = false →
        s2.device = false ∧ s2.isConnected = false) ∧
      ((false : Bool) = true → s2 = { device := true, isConnected := true }) ∧
      ((true : Bool) = false → s2 = { device := true, isConnected := true }) :=
  disconnect_spec { device := true, isConnected := true } false

/-- C9: serial `write` with an open writer sends the UTF-8 encoding of
the text with a single trailing newline appended exactly when the text
does not already end in one (`write("AT")` sends the bytes of `"AT\n"`,
`write("AT\n")` appends nothing further), and fails with the write error
when no writer is open. -/
theorem serialWrite_spec (text : List Char) :
    serialWrite false text = .error "Not connected to serial device" ∧
    (text.getLast? = some '\n' → serialWrite true text = .ok (utf8Encode text)) ∧
    (text.getLast? ≠ some '\n' →
      serialWrite true text = .ok (utf8Encode text ++ [0x0A])) ∧
    serialWrite true ['A', 'T'] = .ok [65, 84, 10] ∧
    serialWrite true ['A', 'T', '\n'] = .ok [65, 84, 10] := by
  refine ⟨rfl, ?_, ?_, rfl, rfl⟩
  · intro hend
    simp [serialWrite, hend]
  · intro hend
    simp only [serialWrite]
    rw [if_neg (by simp)]
    rw [if_neg hend]
    rw [show utf8Encode (text ++ ['\n']) = utf8Encode text ++ [0x0A] from by
      simp [utf8Encode, List.flatMap_append]
      decide]

/-- Witness for C9 on a text without a trailing newline. -/
theorem serialWrite_spec_witness :
    serialWrite true ['X'] = .ok (utf8Encode ['X'] ++ [0x0A]) :=
  (serialWrite_spec ['X']).2.2.1 (by decide)

end ChipWhisperer
